import Mathlib

/-!
Verification development for the `lox/httpcache` HTTP caching proxy.

The Go sources are shallowly embedded: Go `string` byte indexing is modelled
over `List Char` (the inputs of interest are ASCII), Go `time.Time` and
`time.Duration` (int64 nanoseconds) are modelled as `Int` nanoseconds with the
injected clock passed explicitly, Go `uint64` sizes are modelled as `Nat`
(no overflow occurs in the reachable states considered), and Go maps
(`CacheControl`, `http.Header`, the store tables) are modelled as association
lists looked up by key. Fallible Go functions returning `(T, error)` are
modelled with `Except`/`Option`.
-/

namespace Httpcache

/-- `time.Duration`/`time.Time` are int64 nanoseconds in Go; `nsec` is
`time.Second` expressed in those units. -/
def nsec : Int := 1000000000

/-! ## Cache-Control directives (`cachecontrol.go`, map-based revision)

`type CacheControl map[string][]string`, modelled as an association list. -/

abbrev CacheControl : Type := List (String × List String)

/-- `func (cc CacheControl) Has(key string) bool` -/
def CacheControl.Has (cc : CacheControl) (key : String) : Bool :=
  (cc.lookup key).isSome

/-- `func (cc CacheControl) Get(key string) (string, bool)`: the first value
when one exists, `("", true)` for a value-less directive, `("", false)` when
the key is absent. -/
def CacheControl.Get (cc : CacheControl) (key : String) : String × Bool :=
  match cc.lookup key with
  | some v => if v.length > 0 then (v.head!, true) else ("", true)
  | none => ("", false)

/-- Helper for `CacheControl.Add`: append a value to the existing binding. -/
def ccAppendVal (cc : CacheControl) (key val : String) : CacheControl :=
  match cc with
  | [] => []
  | (k, vs) :: rest =>
    if k = key then (k, vs ++ [val]) :: rest else (k, vs) :: ccAppendVal rest key val

/-- `func (cc CacheControl) Add(key, val string)`: ensure the key exists with
an empty list, then append `val` when it is non-empty. -/
def CacheControl.Add (cc : CacheControl) (key val : String) : CacheControl :=
  let cc1 := if cc.Has key then cc else cc ++ [(key, [])]
  if val ≠ "" then ccAppendVal cc1 key val else cc1

/-- Model of Go `time.ParseDuration`, restricted to the single-component
integer fragment `[+-]?digits unit` with units `ns`/`us`/`ms`/`s`/`m`/`h`
(the repository only ever parses `<decimal-seconds> ++ "s"`); the result is
nanoseconds.  Fractions, multi-component durations and int64 overflow are
outside the modelled fragment and yield an error. -/
def goParseDuration (s : String) : Except Unit Int :=
  let chars := s.data
  let (sign, rest) :=
    match chars with
    | '-' :: r => ((-1 : Int), r)
    | '+' :: r => ((1 : Int), r)
    | r => ((1 : Int), r)
  let digits := rest.takeWhile (fun c => c.isDigit)
  let unit := rest.dropWhile (fun c => c.isDigit)
  if digits.isEmpty then Except.error ()
  else
    let n : Int := Int.ofNat (digits.foldl (fun a c => a * 10 + (c.toNat - '0'.toNat)) 0)
    let mult : Except Unit Int :=
      match unit with
      | ['n', 's'] => Except.ok 1
      | ['u', 's'] => Except.ok 1000
      | ['m', 's'] => Except.ok 1000000
      | ['s'] => Except.ok nsec
      | ['m'] => Except.ok (60 * nsec)
      | ['h'] => Except.ok (3600 * nsec)
      | _ => Except.error ()
    match mult with
    | Except.ok m => Except.ok (sign * n * m)
    | Except.error e => Except.error e

/-- `func (cc CacheControl) Duration(key string) (time.Duration, error)`:
`d, _ := cc.Get(key); return time.ParseDuration(d + "s")`. -/
def CacheControl.Duration (cc : CacheControl) (key : String) : Except Unit Int :=
  goParseDuration ((cc.Get key).1 ++ "s")

/-! ### The tokenizer `ParseCacheControl` (`cachecontrol.go` lines 259-290) -/

/-- `strings.Trim(s, "\x22")`: remove all leading and trailing quote chars. -/
def trimQuotes (s : String) : String :=
  String.mk (((s.data.dropWhile (fun c => c = '"')).reverse.dropWhile
    (fun c => c = '"')).reverse)

/-- `func addToken(cc CacheControl, input string)`: split at the first `=`,
trim quotes around the value, and `cc.Add` the pair. -/
def addToken (cc : CacheControl) (input : String) : CacheControl :=
  match input.data.findIdx? (fun c => c = '=') with
  | some idx =>
    CacheControl.Add cc (String.mk (input.data.take idx))
      (trimQuotes (String.mk (input.data.drop (idx + 1))))
  | none => CacheControl.Add cc input ""

/-- The mutable locals of the `ParseCacheControl` scanning loop. -/
structure CCScan where
  cc : CacheControl
  inToken : Bool
  inQuote : Bool
  offset : Nat

/-- `input[a:b]` on a Go string, as a `List Char` slice. -/
def ccSlice (input : List Char) (a b : Nat) : String :=
  String.mk ((input.drop a).take (b - a))

/-- One iteration of the `ParseCacheControl` loop body at index `i`. -/
def parseCCStep (input : List Char) (st : CCScan) (i : Nat) : CCScan :=
  let c := (input.get? i).getD ' '
  if st.inToken ∧ c = ',' ∧ ¬st.inQuote then
    { st with cc := addToken st.cc (ccSlice input st.offset i), inToken := false }
  else if st.inToken ∧ c = '"' ∧ i > 0 ∧ (input.get? (i - 1)).getD ' ' = '=' then
    { st with inQuote := true }
  else if ¬st.inToken ∧ (c ≠ ',' ∧ c ≠ ' ') then
    { st with inToken := true, offset := i }
  else if st.inToken ∧ st.inQuote ∧ c = '"' then
    { st with cc := addToken st.cc (ccSlice input st.offset (i + 1)), inToken := false }
  else st

/-- `func ParseCacheControl(input string) (CacheControl, error)`
(`cachecontrol.go` lines 259-290): scan the input splitting tokens at
unquoted commas, process the leftover tail, and return `(cc, nil)` — this
revision has no error-returning path at all. -/
def ParseCacheControl (input : String) : CacheControl × Option String :=
  let l := input.data
  let st := (List.range l.length).foldl (parseCCStep l) ⟨[], false, false, 0⟩
  let cc := if st.offset < l.length then addToken st.cc (ccSlice l st.offset l.length)
    else st.cc
  (cc, none)

/-! ## HTTP headers (`net/http.Header`), modelled as an association list
from canonical MIME keys to value lists. -/

abbrev Headers : Type := List (String × List String)

/-- Model of Go `validHeaderFieldByte`: the `tchar` set of RFC 7230. -/
def validHeaderFieldChar (c : Char) : Bool :=
  c.isAlphanum ∨ c ∈ "!#$%&'*+-.^_|~".data ∨ c.toNat = 96

/-- The case-mapping pass of `textproto.CanonicalMIMEHeaderKey`: uppercase
at the start and after each hyphen, lowercase elsewhere. -/
def canonicalKeyChars : Bool → List Char → List Char
  | _, [] => []
  | upper, c :: rest =>
    (if upper then c.toUpper else c.toLower) :: canonicalKeyChars (c = '-') rest

/-- `textproto.CanonicalMIMEHeaderKey`: keys containing an invalid byte are
returned unchanged, otherwise the canonical case-mapping is applied. -/
def CanonicalMIMEHeaderKey (s : String) : String :=
  if s.data.all validHeaderFieldChar then String.mk (canonicalKeyChars true s.data) else s

/-- `func (h Header) Get(key string) string`: first value under the
canonicalised key, or `""`. -/
def Headers.Get (h : Headers) (key : String) : String :=
  match h.lookup (CanonicalMIMEHeaderKey key) with
  | some (v :: _) => v
  | _ => ""


/-! ## The validator (`validator.go`) -/

/-- `var validationHeaders = []string{...}` (`validator.go` line 41). -/
def validationHeaders : List String :=
  ["ETag", "Content-MD5", "Last-Modified", "Content-Length"]

/-- The loop body of `headersEqual`: an early `return false` when the new
response carries a non-empty value the stored headers do not match. -/
def headersEqualLoop (h1 h2 : Headers) : List String → Bool
  | [] => true
  | hd :: tl =>
    if h2.Get hd ≠ "" ∧ h1.Get hd ≠ h2.Get hd then false
    else headersEqualLoop h1 h2 tl

/-- `func headersEqual(h1, h2 http.Header) bool` (`validator.go` lines 43-54):
compare the stored headers `h1` with the revalidation response headers `h2`
over `validationHeaders`. -/
def headersEqual (h1 h2 : Headers) : Bool :=
  headersEqualLoop h1 h2 validationHeaders

/-! ## The request classifier (`handler.go` lines 615-654) -/

/-- `type cacheRequest struct`: the fields consulted by `isCacheable`
(the embedded request's method and headers, and the parsed Cache-Control). -/
structure cacheRequest where
  method : String
  header : Headers
  cacheControl : CacheControl

/-- `func (r *cacheRequest) isCacheable() bool` (`handler.go` lines 640-654):
GET/HEAD only, `max-age=0` rejected, `no-store`/`no-cache` rejected. -/
def cacheRequest.isCacheable (r : cacheRequest) : Bool :=
  if ¬(r.method = "GET" ∨ r.method = "HEAD") then false
  else if (r.cacheControl.Get "max-age").2 ∧ (r.cacheControl.Get "max-age").1 = "0" then
    false
  else if r.cacheControl.Has "no-store" ∨ r.cacheControl.Has "no-cache" then false
  else true

/-! ## The resource model (`resource.go`, storage-backed revision)

Go `http.ParseTime` is standard-library code external to this repository;
it is modelled by an explicit parameter `parseT : String → Option Int`
mapping a header value to the parsed instant (nanoseconds), `none` on a
parse error.  The Go zero `time.Time` (year 1) is represented by
`goZeroTime`; `parseT` is only ever applied to HTTP dates, which are taken
to parse to instants other than `goZeroTime`. -/

/-- The Go zero `time.Time` rendered on the nanosecond axis (year 1). -/
def goZeroTime : Int := -62135596800 * nsec

/-- `const ProxyDateHeader = "Proxy-Date"` (`handler.go` line 247). -/
def ProxyDateHeader : String := "Proxy-Date"

/-- Model of `strconv.Atoi`: optional sign then a non-empty digit string
(the int64 range check is omitted; the header values in scope are small). -/
def goAtoi (s : String) : Option Int :=
  let (sign, rest) :=
    match s.data with
    | '-' :: r => ((-1 : Int), r)
    | '+' :: r => ((1 : Int), r)
    | r => ((1 : Int), r)
  if rest.isEmpty ∨ ¬rest.all (fun c => c.isDigit) then none
  else some (sign * Int.ofNat (rest.foldl (fun a c => a * 10 + (c.toNat - '0'.toNat)) 0))

/-- Modelled from the spec: `timeHeader` is absent from `src/` (only its
callers in `handler.go`/`resource.go` are present); per §4.3 it reads the
named header and parses it as an HTTP date, failing when the header is
absent or unparseable. -/
def timeHeader (parseT : String → Option Int) (key : String) (h : Headers) :
    Except Unit Int :=
  if h.Get key ≠ "" then
    match parseT (h.Get key) with
    | some t => Except.ok t
    | none => Except.error ()
  else Except.error ()

/-- Modelled from the spec: `intHeader` is absent from `src/` (only its
callers are); it reads the named header and parses it as a decimal integer,
failing when the header is absent or unparseable. -/
def intHeader (key : String) (h : Headers) : Except Unit Int :=
  if h.Get key ≠ "" then
    match goAtoi (h.Get key) with
    | some n => Except.ok n
    | none => Except.error ()
  else Except.error ()

/-- `type Resource struct` (`resource.go` lines 352-357): the embedded
`storage.Storable` contributes `status`, `header` and the body bytes;
`cacheControl` is the parsed response Cache-Control (`CacheControl` field)
and `stale` the `Stale` marker. -/
structure Resource where
  status : Int
  header : Headers
  body : List Nat
  cacheControl : CacheControl
  stale : Bool

/-- Modelled from the spec: `Resource.IsStale` is absent from `src/` (only
its caller `needsValidation` is); per §3 it reports the explicit-invalidation
marker, i.e. the `Stale` field. -/
def Resource.IsStale (r : Resource) : Bool := r.stale

/-- `func (r *Resource) MustValidate(shared bool) bool`
(`resource.go` lines 399-410). -/
def Resource.MustValidate (r : Resource) (shared : Bool) : Bool :=
  if r.cacheControl.Has "s-maxage" ∧ shared then true
  else if r.cacheControl.Has "must-revalidate" ∨
      (r.cacheControl.Has "proxy-revalidate" ∧ shared) then true
  else false

/-- `func (r *Resource) HasValidators() bool` (`resource.go` lines 477-483). -/
def Resource.HasValidators (r : Resource) : Bool :=
  r.header.Get "Last-Modified" ≠ "" ∨ r.header.Get "Etag" ≠ ""

/-- `d, _ := cc.Duration(key)`: Go `time.ParseDuration` returns duration 0
alongside its error, so an unparseable (or value-less) directive reads as 0. -/
def durationOrZero (cc : CacheControl) (key : String) : Int :=
  match cc.Duration key with
  | Except.ok d => d
  | Except.error _ => 0

/-- `func (r *Resource) Expires() (time.Time, error)`
(`resource.go` lines 391-397): `none` models the zero `time.Time` returned
when the header is absent. -/
def Resource.Expires (parseT : String → Option Int) (r : Resource) :
    Except Unit (Option Int) :=
  if r.header.Get "Expires" ≠ "" then
    match parseT (r.header.Get "Expires") with
    | some t => Except.ok (some t)
    | none => Except.error ()
  else Except.ok none

/-- `func (r *Resource) HasExplicitExpiration() bool`
(`resource.go` lines 485-499): a positive `max-age` or `s-maxage` duration,
or a parseable non-zero `Expires` (`exp, _ := r.Expires()` leaves the zero
time on error). -/
def Resource.HasExplicitExpiration (parseT : String → Option Int)
    (r : Resource) : Bool :=
  if durationOrZero r.cacheControl "max-age" > 0 then true
  else if durationOrZero r.cacheControl "s-maxage" > 0 then true
  else
    match r.Expires parseT with
    | Except.ok (some _) => true
    | _ => false

/-- `func (r *Resource) LastModified() time.Time`
(`resource.go` lines 379-389): `none` models the zero `time.Time`. -/
def Resource.LastModified (parseT : String → Option Int) (r : Resource) :
    Option Int :=
  if r.header.Get "Last-Modified" ≠ "" then parseT (r.header.Get "Last-Modified")
  else none

/-- `func (r *Resource) HeuristicFreshness() time.Duration`
(`resource.go` lines 501-507): a tenth of the time since `Last-Modified`
(Go `time.Duration` division truncates toward zero). -/
def Resource.HeuristicFreshness (parseT : String → Option Int) (now : Int)
    (r : Resource) : Int :=
  if ¬r.HasExplicitExpiration parseT ∧ r.header.Get "Last-Modified" ≠ "" then
    Int.tdiv (now - ((r.LastModified parseT).getD goZeroTime)) 10
  else 0

/-- `func (r *Resource) Age() (time.Duration, error)`
(`resource.go` lines 424-440): the `Age` header (0 when absent) plus the
time since `Proxy-Date`, else since `Date`, else an error. -/
def Resource.Age (parseT : String → Option Int) (now : Int) (r : Resource) :
    Except Unit Int :=
  let age : Int :=
    match intHeader "Age" r.header with
    | Except.ok n => nsec * n
    | Except.error _ => 0
  match timeHeader parseT ProxyDateHeader r.header with
  | Except.ok proxyDate => Except.ok (now - proxyDate + age)
  | Except.error _ =>
    match timeHeader parseT "Date" r.header with
    | Except.ok date => Except.ok (now - date + age)
    | Except.error _ => Except.error ()

/-- `func (r *Resource) MaxAge(shared bool) (time.Duration, error)`
(`resource.go` lines 442-468): `s-maxage` when shared, then `max-age`, then
`Expires − now`, then 0 — each duration source is used only when its parsed
value is positive, otherwise control falls through to the next source. -/
def Resource.MaxAge (parseT : String → Option Int) (now : Int) (r : Resource)
    (shared : Bool) : Except Unit Int :=
  let step3 : Except Unit Int :=
    if r.header.Get "Expires" ≠ "" then
      match parseT (r.header.Get "Expires") with
      | some expires => Except.ok (expires - now)
      | none => Except.error ()
    else Except.ok 0
  let step2 : Except Unit Int :=
    if r.cacheControl.Has "max-age" then
      match r.cacheControl.Duration "max-age" with
      | Except.ok maxAge => if maxAge > 0 then Except.ok maxAge else step3
      | Except.error e => Except.error e
    else step3
  if r.cacheControl.Has "s-maxage" ∧ shared then
    match r.cacheControl.Duration "s-maxage" with
    | Except.ok maxAge => if maxAge > 0 then Except.ok maxAge else step2
    | Except.error e => Except.error e
  else step2

/-! ## The handler (`handler.go`, cache-request revision) -/

/-- `var storeable = map[int]bool{...}` (`handler.go` lines 252-260). -/
def storeable : List Int := [200, 302, 203, 300, 301, 410, 404]

/-- `var cacheableByDefault = map[int]bool{...}` (`handler.go` lines 262-271). -/
def cacheableByDefault : List Int := [200, 302, 304, 203, 300, 301, 410, 206]

/-- `func (h *Handler) isCacheable(res *Resource, r *cacheRequest) bool`
(`handler.go` lines 490-524).  `res.cacheControl()` is absent from `src/`
and is modelled from the spec as returning the resource's parsed directives;
with this revision's `ParseCacheControl` (which never fails) its error
result is always nil, so the parse-failure branch is never taken. -/
def Handler.isCacheable (parseT : String → Option Int) (now : Int)
    (shared : Bool) (res : Resource) (r : cacheRequest) : Bool :=
  let cc := res.cacheControl
  if cc.Has "no-cache" ∨ cc.Has "no-store" ∨ (cc.Has "private" ∧ shared) then false
  else if ¬storeable.contains res.status then false
  else if r.header.Get "Authorization" ≠ "" ∧ shared then false
  else if res.HasExplicitExpiration parseT then true
  else if cacheableByDefault.contains res.status then
    if cc.Has "public" then true
    else if res.HasValidators then true
    else if res.HeuristicFreshness parseT now > 0 then true
    else false
  else false

/-- `func (h *Handler) needsValidation(res *Resource, r *cacheRequest) bool`
(`handler.go` lines 350-413). -/
def Handler.needsValidation (parseT : String → Option Int) (now : Int)
    (shared : Bool) (res : Resource) (r : cacheRequest) : Bool :=
  if res.MustValidate shared then true
  else if res.IsStale then true
  else
    match Resource.MaxAge parseT now res shared with
    | Except.error _ => true
    | Except.ok maxAge0 =>
      let rest : Int → Bool := fun maxAge =>
        match Resource.Age parseT now res with
        | Except.error _ => true
        | Except.ok age =>
          let finalCheck : Bool :=
            if age > maxAge then
              if durationOrZero r.cacheControl "max-stale" > age - maxAge then false
              else true
            else false
          if res.HeuristicFreshness parseT now > age then false
          else if r.cacheControl.Has "min-fresh" then
            match r.cacheControl.Duration "min-fresh" with
            | Except.error _ => true
            | Except.ok reqMinFresh =>
              if age + reqMinFresh > maxAge then true else finalCheck
          else finalCheck
      if r.cacheControl.Has "max-age" then
        match r.cacheControl.Duration "max-age" with
        | Except.error _ => true
        | Except.ok reqMaxAge =>
          rest (if reqMaxAge < maxAge0 then reqMaxAge else maxAge0)
      else rest maxAge0

/-! ## Storage (`storage/` package)

Go `uint64` sizes are modelled as `Nat`; `len(key)` is the byte length of
the key string. -/

/-- The Go `error` values that reach the storage layer. -/
inductive StorageErr where
  | keyNotFound (message key : String)
  | ioError (message : String)
deriving DecidableEq

/-- `func IsErrNotFound(e error) bool` (`storage/storage.go` lines 38-40):
`return true`, unconditionally, ignoring its argument. -/
def IsErrNotFound (e : StorageErr) : Bool := true

/-- The guard `err != nil && !IsErrNotFound(err)` applied to the result of
the preliminary `Delete` in `MemoryStorage.Store` and `DiskStorage.Store`. -/
def shouldPropagateDeleteErr (e : Option StorageErr) : Bool :=
  match e with
  | some err => !IsErrNotFound err
  | none => false

/-- `type byteStorable struct` (`storage/byte.go`): body bytes, header,
status; `Size()` is the body length. -/
structure byteStorable where
  body : List Nat
  header : Headers
  statusCode : Int

/-- `func (s *byteStorable) Size() uint64` (`storage/byte.go` lines 22-24). -/
def byteStorable.Size (s : byteStorable) : Nat := s.body.length

/-- `func StorableCopy(w io.Writer, s Storable) (int64, error)`
(`storage/storable.go` lines 22-34): when `Content-Length` parses, copy
exactly that many bytes (`io.CopyN` fails with EOF when the body is shorter
or the length is negative); otherwise copy the whole body. -/
def StorableCopy (s : byteStorable) : Except StorageErr (List Nat) :=
  match goAtoi (s.header.Get "Content-Length") with
  | some n =>
    if 0 ≤ n ∧ n ≤ (s.body.length : Int) then Except.ok (s.body.take n.toNat)
    else Except.error (StorageErr.ioError "EOF")
  | none => Except.ok s.body

/-- `type CappedLRUList struct` (`storage/lru.go` lines 108-112) together
with its inner `LRUList`: the table and recency list are fused into one
association list ordered most-recently-used first; `size` is the running
byte counter and `capacity` the bound (0 = unbounded).  The element type is
a parameter so the list serves both the memory backend (`byteStorable`) and
the disk backend (`fileStorable`). -/
structure CappedLRUList (α : Type) where
  entries : List (String × α)
  size : Nat
  capacity : Nat

/-- `func (e *lruEntry) Size() uint64` (`storage/lru.go` lines 14-16):
the storable's size plus the byte length of the key. -/
def lruEntrySize (sz : α → Nat) (key : String) (s : α) : Nat :=
  sz s + key.utf8ByteSize

/-- `func (cl *CappedLRUList) Delete(key string)` (`storage/lru.go` lines
141-147): when the key exists, remove its entry and subtract its size. -/
def CappedLRUList.Delete (sz : α → Nat) (l : CappedLRUList α) (key : String) :
    CappedLRUList α :=
  match l.entries.lookup key with
  | some s =>
    { l with
      entries := l.entries.eraseP (fun p => p.1 == key)
      size := l.size - lruEntrySize sz key s }
  | none => l

/-- `Oldest()` (`storage/lru.go` lines 48-57): the key at the back of the
recency list, `""` when empty. -/
def CappedLRUList.oldestKey (l : CappedLRUList α) : String :=
  match l.entries.getLast? with
  | some p => p.1
  | none => ""

theorem lookup_mem_pair {α : Type} {l : List (String × α)} {k : String} {v : α}
    (h : l.lookup k = some v) : (k, v) ∈ l := by
  induction l with
  | nil => simp [List.lookup] at h
  | cons p t ih =>
    rw [List.lookup] at h
    by_cases hk : k = p.1
    · subst hk
      simp at h
      cases p
      simp_all
    · simp [beq_false_of_ne hk] at h
      exact List.mem_cons_of_mem _ (ih h)

theorem lookup_isSome_of_key_mem {α : Type} {l : List (String × α)} {k : String}
    (h : k ∈ l.map Prod.fst) : (l.lookup k).isSome := by
  induction l with
  | nil => simp at h
  | cons p t ih =>
    rw [List.lookup]
    by_cases hk : k = p.1
    · simp [hk]
    · simp [beq_false_of_ne hk]
      simp at h
      rcases h with h | h
      · exact absurd h hk
      · simpa using ih (by simpa using h)

theorem lru_delete_found_shrinks (sz : α → Nat) (l : CappedLRUList α)
    (k : String) (h : (l.entries.lookup k).isSome) :
    (l.Delete sz k).entries.length < l.entries.length := by
  obtain ⟨v, hv⟩ := Option.isSome_iff_exists.1 h
  have hmem : (k, v) ∈ l.entries := lookup_mem_pair hv
  unfold CappedLRUList.Delete
  rw [hv]
  simp only
  have := List.length_eraseP_add_one (p := fun p => p.1 == k) hmem (by simp)
  omega

theorem lru_delete_oldest_shrinks (sz : α → Nat) (l : CappedLRUList α)
    (h : 0 < l.entries.length) :
    (l.Delete sz l.oldestKey).entries.length < l.entries.length := by
  apply lru_delete_found_shrinks
  apply lookup_isSome_of_key_mem
  unfold CappedLRUList.oldestKey
  cases hl : l.entries.getLast? with
  | none =>
    rw [List.getLast?_eq_none_iff.1 hl] at h
    simp at h
  | some p =>
    have hpmem : p ∈ l.entries.getLast? := by rw [hl]; rfl
    obtain ⟨hne, hpl⟩ := List.mem_getLast?_eq_getLast hpmem
    rw [hpl]
    exact List.mem_map_of_mem Prod.fst (List.getLast_mem hne)

/-- `func (cl *CappedLRUList) trim()` (`storage/lru.go` lines 122-129):
while over a non-zero capacity, delete the oldest entry.  The Go loop can
only exit through `size ≤ capacity`; the extra non-emptiness guard makes
the function total and never fires on states whose size counter equals the
sum of the entry sizes (where an empty list forces `size = 0`). -/
def CappedLRUList.trim (sz : α → Nat) (l : CappedLRUList α) : CappedLRUList α :=
  if h : l.capacity ≠ 0 ∧ l.size > l.capacity ∧ 0 < l.entries.length then
    CappedLRUList.trim sz (l.Delete sz l.oldestKey)
  else l
termination_by l.entries.length
decreasing_by
  exact lru_delete_oldest_shrinks sz l h.2.2

/-- `func (cl *CappedLRUList) Add(key, s)` (`storage/lru.go` lines 135-139):
push the entry to the front (`LRUList.Add`), grow the size counter, trim. -/
def CappedLRUList.Add (sz : α → Nat) (l : CappedLRUList α) (key : String)
    (s : α) : CappedLRUList α :=
  CappedLRUList.trim sz
    { l with
      entries := (key, s) :: l.entries
      size := l.size + lruEntrySize sz key s }

/-- `NewCappedLRUList(capacity)` (`storage/lru.go` lines 116-118). -/
def NewCappedLRUList (α : Type) (capacity : Nat) : CappedLRUList α :=
  ⟨[], 0, capacity⟩

/-! ### The memory backend (`MemoryStorage`, `src/unnamed/part_000`) -/

/-- `type MemoryStorage struct { items *CappedLRUList }`. -/
structure MemoryStorage where
  items : CappedLRUList byteStorable

/-- `NewMemoryStorage(capacity)`. -/
def NewMemoryStorage (capacity : Nat) : MemoryStorage :=
  ⟨NewCappedLRUList byteStorable capacity⟩

/-- `func (ms *MemoryStorage) Delete(key string) error`: `keyNotFound` when
the key is absent, otherwise remove it. -/
def MemoryStorage.Delete (ms : MemoryStorage) (key : String) :
    MemoryStorage × Option StorageErr :=
  match ms.items.entries.lookup key with
  | none => (ms, some (StorageErr.keyNotFound "Key not found" key))
  | some _ => (⟨ms.items.Delete byteStorable.Size key⟩, none)

/-- `func (ms *MemoryStorage) Store(key string, s Storable) error`
(`src/unnamed/part_000` lines 40-57): preliminary delete (its error is
swallowed unless `!IsErrNotFound`), copy the body, add the new entry. -/
def MemoryStorage.Store (ms : MemoryStorage) (key : String) (s : byteStorable) :
    MemoryStorage × Option StorageErr :=
  let (ms1, derr) := ms.Delete key
  if shouldPropagateDeleteErr derr then (ms1, derr)
  else
    match StorableCopy s with
    | Except.error e => (ms1, some e)
    | Except.ok buf =>
      (⟨ms1.items.Add byteStorable.Size key ⟨buf, s.header, s.statusCode⟩⟩, none)

/-- `func (ms *MemoryStorage) Get(key string) (Storable, error)`: the stored
storable; the underlying `LRUList.Get` moves the entry to the front. -/
def MemoryStorage.Get (ms : MemoryStorage) (key : String) :
    Option byteStorable × MemoryStorage :=
  match ms.items.entries.lookup key with
  | none => (none, ms)
  | some s =>
    (some s,
      ⟨{ ms.items with
          entries := (key, s) :: ms.items.entries.eraseP (fun p => p.1 == key) }⟩)

/-- `func (ms *MemoryStorage) Freshen(key, statusCode, header) error`
(`src/unnamed/part_000` lines 28-38): replace the entry's header and status
in place, leaving its body bytes untouched (the `Get` moves it to front). -/
def MemoryStorage.Freshen (ms : MemoryStorage) (key : String) (statusCode : Int)
    (header : Headers) : MemoryStorage × Option StorageErr :=
  match ms.items.entries.lookup key with
  | none => (ms, some (StorageErr.keyNotFound "Key not found, cannot store meta" key))
  | some s =>
    (⟨{ ms.items with
        entries := (key, { s with header := header, statusCode := statusCode }) ::
          ms.items.entries.eraseP (fun p => p.1 == key) }⟩, none)

/-! ### The disk backend (`DiskStorage`, `storage/disk.go`)

The MD5-hex file naming of `keyPath` is injective on keys up to hash
collisions and is modelled as identity keying into a `files` map; the
operating-system file operations are modelled as always succeeding. -/

/-- `type fileStorable struct` (`storage/disk.go` lines 13-18). -/
structure fileStorable where
  path : String
  size : Nat
  header : Headers
  statusCode : Int

/-- `func (fs *fileStorable) Size() uint64`. -/
def fileStorable.Size (fs : fileStorable) : Nat := fs.size

/-- `type DiskStorage struct`: the LRU metadata table plus the directory
contents (path to body bytes). -/
structure DiskStorage where
  items : CappedLRUList fileStorable
  files : List (String × List Nat)

/-- `func (ms *DiskStorage) Delete(key string) error` (`storage/disk.go`
lines 118-126): removes the table entry only — the file stays on disk. -/
def DiskStorage.Delete (ds : DiskStorage) (key : String) :
    DiskStorage × Option StorageErr :=
  match ds.items.entries.lookup key with
  | none => (ds, some (StorageErr.keyNotFound "Key not found" key))
  | some _ => ({ ds with items := ds.items.Delete fileStorable.Size key }, none)

/-- `func (ms *DiskStorage) Store(key string, s Storable) error`
(`storage/disk.go` lines 76-97): preliminary delete (guarded by
`IsErrNotFound`), create/truncate the file, copy the body into it, add the
metadata entry with the byte count written. -/
def DiskStorage.Store (ds : DiskStorage) (key : String) (s : byteStorable) :
    DiskStorage × Option StorageErr :=
  let (ds1, derr) := ds.Delete key
  if shouldPropagateDeleteErr derr then (ds1, derr)
  else
    match StorableCopy s with
    | Except.error e =>
      ({ ds1 with files := (key, []) :: ds1.files.eraseP (fun p => p.1 == key) }, some e)
    | Except.ok buf =>
      ({ items := ds1.items.Add fileStorable.Size key ⟨key, buf.length, s.header, s.statusCode⟩
         files := (key, buf) :: ds1.files.eraseP (fun p => p.1 == key) }, none)

/-- `func (ms *DiskStorage) Get(key string) (Storable, error)`. -/
def DiskStorage.Get (ds : DiskStorage) (key : String) :
    Option fileStorable × DiskStorage :=
  match ds.items.entries.lookup key with
  | none => (none, ds)
  | some s =>
    (some s,
      { ds with items := { ds.items with
          entries := (key, s) :: ds.items.entries.eraseP (fun p => p.1 == key) } })

/-- The body bytes readable through a `Get`: open the storable's path. -/
def DiskStorage.readBody (ds : DiskStorage) (s : fileStorable) : Option (List Nat) :=
  ds.files.lookup s.path

/-- `func (ms *DiskStorage) Freshen(key, statusCode, header) error`
(`storage/disk.go` lines 61-74): replace the entry's header and status in
place; `path`, `size` and the file contents are untouched. -/
def DiskStorage.Freshen (ds : DiskStorage) (key : String) (statusCode : Int)
    (header : Headers) : DiskStorage × Option StorageErr :=
  match ds.items.entries.lookup key with
  | none => (ds, some (StorageErr.keyNotFound "Key not found, cannot store meta" key))
  | some s =>
    ({ ds with items := { ds.items with
        entries := (key, { s with header := header, statusCode := statusCode }) ::
          ds.items.entries.eraseP (fun p => p.1 == key) } }, none)

/-! ## The cache coordinator (`src/unnamed/part_012` lines 196-326)

`Cache` keeps body and header files in a VFS under `sha256(key)`-derived
paths plus a stale-marker map; the hashing is injective up to collisions
and is modelled as identity keying. -/

/-- `func (r *Resource) DateAfter(d time.Time) bool`
(`resource.go` lines 412-421): false when the `Date` header is absent or
unparseable, otherwise `Date > d`. -/
def Resource.DateAfter (parseT : String → Option Int) (r : Resource) (d : Int) :
    Bool :=
  if r.header.Get "Date" ≠ "" then
    match parseT (r.header.Get "Date") with
    | none => false
    | some t => t > d
  else false

/-- `res.MarkStale()`: set the stale marker on a resource. -/
def Resource.MarkStale (r : Resource) : Resource := { r with stale := true }

/-- `type Cache struct { fs vfs.VFS; stale map[string]time.Time }`. -/
structure Cache where
  bodies : List (String × List Nat)
  headerFiles : List (String × Headers)
  stale : List (String × Int)

/-- `func (c *Cache) Retrieve(key string) (*Resource, error)`
(`src/unnamed/part_012` lines 296-319): open the body and header files
(`ErrNotFoundInCache` when either is missing), build the resource with
status 200, and mark it stale when a stale marker exists that the
resource's `Date` does not strictly follow.  The response directives play
no role here and are left unparsed. -/
def Cache.Retrieve (parseT : String → Option Int) (c : Cache) (key : String) :
    Except Unit Resource :=
  match c.bodies.lookup key with
  | none => Except.error ()
  | some body =>
    match c.headerFiles.lookup key with
    | none => Except.error ()
    | some h =>
      let res : Resource :=
        { status := 200, header := h, body := body, cacheControl := [], stale := false }
      match c.stale.lookup key with
      | some staleTime =>
        if ¬res.DateAfter parseT staleTime then Except.ok res.MarkStale
        else Except.ok res
      | none => Except.ok res

/-- `func (c *Cache) Invalidate(keys ...string)`
(`src/unnamed/part_012` lines 321-326): record `Clock()` as the stale
marker for each key; the stored files are untouched. -/
def Cache.Invalidate (c : Cache) (now : Int) (keys : List String) : Cache :=
  { c with
    stale := keys.foldl (fun st k => (k, now) :: st.eraseP (fun p => p.1 == k)) c.stale }

/-- `func newCacheRequest(r *http.Request) (*cacheRequest, error)`
(`handler.go` lines 622-638): parse the request Cache-Control (propagating
its error) and reject HTTP/1.1 requests with an empty Host; the key and
timestamp fields play no role in the claims and are omitted. -/
def newCacheRequest (method : String) (header : Headers) (proto host : String) :
    Except String cacheRequest :=
  match ParseCacheControl (header.Get "Cache-Control") with
  | (_, some e) => Except.error e
  | (cc, none) =>
    if proto = "HTTP/1.1" ∧ host = "" then Except.error "Host header cannot be empty"
    else Except.ok { method := method, header := header, cacheControl := cc }


/-! # Theorems for the claims -/

/-- C4, counterexample: the claimed failing input — an unterminated quoted
string — parses without error: `ParseCacheControl` of this revision returns
a nil error on it (as on every input), so no input exists on which parsing
does not succeed. -/
theorem c4_counterexample : (ParseCacheControl "max-age=\"60").2 = none := by rfl

/-- C4 (amended): `ParseCacheControl` never returns a parse error — in
particular an unterminated quoted string parses successfully — so the
pipeline's 400-response path for unparseable Cache-Control is unreachable;
`newCacheRequest` fails exactly when the request is HTTP/1.1 with an empty
Host header (and that failure is answered with 400 before any store
interaction). -/
theorem c4_parse_never_fails :
    (∀ s : String, (ParseCacheControl s).2 = none) ∧
    (∀ method : String, ∀ header : Headers, ∀ proto host : String,
      newCacheRequest method header proto host = Except.error "Host header cannot be empty"
        ↔ proto = "HTTP/1.1" ∧ host = "") := by
  constructor
  · intro s
    rfl
  · intro method header proto host
    unfold newCacheRequest
    rcases hp : ParseCacheControl (header.Get "Cache-Control") with ⟨cc, err⟩
    have herr : err = none := by
      have := congrArg Prod.snd hp
      simpa using this.symm
    subst herr
    by_cases hc : proto = "HTTP/1.1" ∧ host = ""
    · simp [hc]
    · simp [hc]

/-- C2, counterexample: a `Content-MD5` present only in the revalidation
response (`h2`) and absent from the stored headers (`h1`) makes
`headersEqual` return false, i.e. the validator reports `changed` — the
claim says a new-only `Content-MD5` should not. -/
theorem c2_counterexample : headersEqual [] [("Content-Md5", ["x"])] = false := by rfl

/-- C2 (amended): `headersEqual` succeeds iff, for each of the four checked
headers (`ETag`, `Content-MD5`, `Last-Modified`, `Content-Length`), a
non-empty value in the new response equals the stored value; a value
present only in the new response is a mismatch for every one of the four
headers (not just `ETag`/`Last-Modified`), while a header present only in
the stored resource is ignored. -/
theorem c2_headersEqual_spec (h1 h2 : Headers) :
    headersEqual h1 h2 = true ↔
      ∀ k ∈ validationHeaders, h2.Get k ≠ "" → h1.Get k = h2.Get k := by
  unfold headersEqual validationHeaders
  constructor
  · intro h k hk
    simp only [headersEqualLoop] at h
    split_ifs at h <;> simp at hk <;> rcases hk with rfl | rfl | rfl | rfl <;> tauto
  · intro h
    simp only [headersEqualLoop]
    split_ifs <;> first
      | rfl
      | (exfalso
         rename_i hcond
         exact hcond.2 (h _ (by simp) hcond.1))

/-- C3, counterexample: a GET request bearing `If-Match` (with an otherwise
empty Cache-Control) is classified cacheable — the conditional headers
`If-Match`, `If-Unmodified-Since` and `If-Range` are never consulted by
this revision of `cacheRequest.isCacheable`, though the claim says such a
request is not cacheable. -/
theorem c3_counterexample :
    cacheRequest.isCacheable ⟨"GET", [("If-Match", ["x"])], []⟩ = true := by rfl

/-- C3 (amended): `cacheRequest.isCacheable` returns true iff the method is
GET or HEAD, the `max-age` directive is not present with value `0`, and
Cache-Control contains neither `no-store` nor `no-cache`; the request
headers (in particular `If-Match`, `If-Unmodified-Since`, `If-Range`) are
not consulted. -/
theorem c3_isCacheable_spec (r : cacheRequest) :
    r.isCacheable = true ↔
      (r.method = "GET" ∨ r.method = "HEAD") ∧
      ¬((r.cacheControl.Get "max-age").2 ∧ (r.cacheControl.Get "max-age").1 = "0") ∧
      ¬(r.cacheControl.Has "no-store" ∨ r.cacheControl.Has "no-cache") := by
  unfold cacheRequest.isCacheable
  constructor
  · intro h
    split_ifs at h with h1 h2 h3
    all_goals (try simp at h)
    exact ⟨h1, h2, h3⟩
  · rintro ⟨hm, hma, hnsc⟩
    split_ifs with h1 h2 h3 <;> first | rfl | tauto

/-- C10: `IsErrNotFound` returns true for every error value (it ignores its
argument), hence the guard `err != nil && !IsErrNotFound(err)` applied to
the preliminary `Delete` in the Store methods never fires, and the only
error either `MemoryStorage.Store` or `DiskStorage.Store` can return is the
body-copy failure (`ioError`), never the delete's `keyNotFound`. -/
theorem storableCopy_not_keyNotFound (s : byteStorable) (m k : String) :
    StorableCopy s ≠ Except.error (StorageErr.keyNotFound m k) := by
  unfold StorableCopy
  cases goAtoi (s.header.Get "Content-Length") with
  | none => simp
  | some n =>
    by_cases hn : 0 ≤ n ∧ n ≤ (s.body.length : Int)
    · simp [hn]
    · simp [hn]

theorem c10_isErrNotFound_total :
    (∀ e : StorageErr, IsErrNotFound e = true) ∧
    (∀ d : Option StorageErr, shouldPropagateDeleteErr d = false) ∧
    (∀ (ms : MemoryStorage) (key : String) (s : byteStorable),
      (ms.Store key s).2 = none ∨ ∃ msg, (ms.Store key s).2 = some (StorageErr.ioError msg)) ∧
    (∀ (ds : DiskStorage) (key : String) (s : byteStorable),
      (ds.Store key s).2 = none ∨ ∃ msg, (ds.Store key s).2 = some (StorageErr.ioError msg)) := by
  refine ⟨fun e => rfl, fun d => by cases d <;> rfl, ?_, ?_⟩
  · intro ms key s
    unfold MemoryStorage.Store MemoryStorage.Delete
    cases hl : ms.items.entries.lookup key with
    | none =>
      simp only [shouldPropagateDeleteErr, IsErrNotFound, Bool.not_true, if_neg]
      cases hc : StorableCopy s with
      | error e =>
        cases e with
        | keyNotFound m k => exact absurd hc (storableCopy_not_keyNotFound s m k)
        | ioError m => exact Or.inr ⟨m, by simp [hc]⟩
      | ok buf => exact Or.inl (by simp [hc])
    | some v =>
      simp only [shouldPropagateDeleteErr, if_neg]
      cases hc : StorableCopy s with
      | error e =>
        cases e with
        | keyNotFound m k => exact absurd hc (storableCopy_not_keyNotFound s m k)
        | ioError m => exact Or.inr ⟨m, by simp [hc]⟩
      | ok buf => exact Or.inl (by simp [hc])
  · intro ds key s
    unfold DiskStorage.Store DiskStorage.Delete
    cases hl : ds.items.entries.lookup key with
    | none =>
      simp only [shouldPropagateDeleteErr, IsErrNotFound, Bool.not_true, if_neg]
      cases hc : StorableCopy s with
      | error e =>
        cases e with
        | keyNotFound m k => exact absurd hc (storableCopy_not_keyNotFound s m k)
        | ioError m => exact Or.inr ⟨m, by simp [hc]⟩
      | ok buf => exact Or.inl (by simp [hc])
    | some v =>
      simp only [shouldPropagateDeleteErr, if_neg]
      cases hc : StorableCopy s with
      | error e =>
        cases e with
        | keyNotFound m k => exact absurd hc (storableCopy_not_keyNotFound s m k)
        | ioError m => exact Or.inr ⟨m, by simp [hc]⟩
      | ok buf => exact Or.inl (by simp [hc])

/-- A parse oracle for witnesses that parses no date at all. -/
def noParse : String → Option Int := fun _ => none

/-- A 203 response with `Cache-Control: max-age=60` (explicit expiration). -/
def res203 : Resource := ⟨203, [], [], [("max-age", ["60"])], false⟩

/-- A 206 partial-content response with the same directives. -/
def res206 : Resource := ⟨206, [], [], [("max-age", ["60"])], false⟩

/-- A plain GET request with no headers and no directives. -/
def reqEmpty : cacheRequest := ⟨"GET", [], []⟩

/-- C1, counterexample: a 203 upstream response with explicit expiration is
permitted for storage by `Handler.isCacheable`, yet 203 is not in the
claim's storeable set {200, 301, 302, 303, 304, 307, 404, 410} — the code's
set is {200, 203, 300, 301, 302, 404, 410}. -/
theorem c1_counterexample :
    Handler.isCacheable noParse 0 false res203 reqEmpty = true ∧
    ¬((203 : Int) ∈ [200, 301, 302, 303, 304, 307, 404, 410]) := by
  constructor
  · rfl
  · decide

/-- C1 (amended): on the PASS path `Handler.isCacheable` permits storage
only if the response status is in the code's storeable set
{200, 302, 203, 300, 301, 410, 404}, and a 206 response is never
storeable (206 is absent from `storeable`, although it appears in
`cacheableByDefault`). -/
theorem c1_isCacheable_storeable :
    (∀ (parseT : String → Option Int) (now : Int) (shared : Bool) (res : Resource)
        (r : cacheRequest), Handler.isCacheable parseT now shared res r = true →
        storeable.contains res.status = true) ∧
    (∀ (parseT : String → Option Int) (now : Int) (shared : Bool) (res : Resource)
        (r : cacheRequest), res.status = 206 →
        Handler.isCacheable parseT now shared res r = false) := by
  constructor
  · intro parseT now shared res r h
    unfold Handler.isCacheable at h
    split_ifs at h with h1 h2 <;> simp_all
  · intro parseT now shared res r h206
    unfold Handler.isCacheable
    rw [h206]
    norm_num [storeable]

/-- C1 witness: the amended theorem applied at the concrete 203 and 206
responses. -/
theorem c1_witness :
    storeable.contains res203.status = true ∧
    Handler.isCacheable noParse 0 false res206 reqEmpty = false :=
  ⟨c1_isCacheable_storeable.1 noParse 0 false res203 reqEmpty (by rfl),
   c1_isCacheable_storeable.2 noParse 0 false res206 reqEmpty (by rfl)⟩

/-- A resource bearing `Cache-Control: s-maxage=0, max-age=60`. -/
def res5 : Resource := ⟨200, [], [], [("s-maxage", ["0"]), ("max-age", ["60"])], false⟩

/-- C5, counterexample: on a shared cache, a resource with
`s-maxage=0, max-age=60` gets `MaxAge = 60s` — the claim says the present
`s-maxage` value (0) is returned and `max-age` is not consulted, but the
code only returns a duration source when it is positive and otherwise
falls through. -/
theorem c5_counterexample :
    Resource.MaxAge noParse 0 res5 true = Except.ok (60 * nsec) := by rfl

/-- C5 (amended): `MaxAge(shared)` returns the first of: the `s-maxage`
value when shared and positive; else the `max-age` value when positive;
else `Expires − now` when `Expires` is present; else zero.  A zero
`s-maxage` (or `max-age`) falls through to the next source instead of
being returned. -/
theorem c5_maxAge_spec (parseT : String → Option Int) (now : Int) (r : Resource) :
    (∀ d : Int, r.cacheControl.Has "s-maxage" = true →
        r.cacheControl.Duration "s-maxage" = Except.ok d → 0 < d →
        Resource.MaxAge parseT now r true = Except.ok d) ∧
    (∀ d : Int, r.cacheControl.Has "s-maxage" = true →
        r.cacheControl.Duration "s-maxage" = Except.ok 0 →
        r.cacheControl.Has "max-age" = true →
        r.cacheControl.Duration "max-age" = Except.ok d → 0 < d →
        Resource.MaxAge parseT now r true = Except.ok d) ∧
    (∀ t : Int, ∀ shared : Bool, r.cacheControl.Has "s-maxage" = false →
        r.cacheControl.Has "max-age" = false →
        r.header.Get "Expires" ≠ "" → parseT (r.header.Get "Expires") = some t →
        Resource.MaxAge parseT now r shared = Except.ok (t - now)) ∧
    (∀ shared : Bool, r.cacheControl.Has "s-maxage" = false →
        r.cacheControl.Has "max-age" = false →
        r.header.Get "Expires" = "" →
        Resource.MaxAge parseT now r shared = Except.ok 0) := by
  refine ⟨?_, ?_, ?_, ?_⟩
  · intro d h1 h2 h3
    simp [Resource.MaxAge, h1, h2, h3]
  · intro d h1 h2 h3 h4 h5
    simp [Resource.MaxAge, h1, h2, h3, h4, h5]
  · intro t shared h1 h2 h3 h4
    simp [Resource.MaxAge, h1, h2, h3, h4]
  · intro shared h1 h2 h3
    simp [Resource.MaxAge, h1, h2, h3]

/-- C5 witness: the fall-through clause of the amended theorem applied to
the concrete `s-maxage=0, max-age=60` resource. -/
theorem c5_witness : Resource.MaxAge noParse 0 res5 true = Except.ok (60 * nsec) :=
  (c5_maxAge_spec noParse 0 res5).2.1 (60 * nsec) (by rfl) (by rfl) (by rfl) (by rfl)
    (by norm_num [nsec])

/-- A parse oracle mapping the date string `D` to instant 0. -/
def parseD : String → Option Int := fun s => if s = "D" then some 0 else none

/-- A 200 response dated at instant 0 with `Cache-Control: max-age=60`. -/
def res6 : Resource := ⟨200, [("Date", ["D"])], [], [("max-age", ["60"])], false⟩

/-- A GET request with a value-less `max-stale` directive. -/
def req6 : cacheRequest := ⟨"GET", [], [("max-stale", [])]⟩

/-- A GET request with `max-stale=50`. -/
def req6b : cacheRequest := ⟨"GET", [], [("max-stale", ["50"])]⟩

/-- C6, counterexample: a resource 100s old with `max-age=60` (freshness
−40s) requested with a value-less `max-stale` still needs validation —
the claim says a value-less `max-stale` allows serving unconditionally,
but `Duration("max-stale")` parses the empty value to 0, which never
exceeds the staleness. -/
theorem c6_counterexample :
    Handler.needsValidation parseD (100 * nsec) false res6 req6 = true := by rfl

/-- C6 (amended): for a cached resource that is stale by the code's measure
(`age > max-age`, with must-validate, stale marker, request `max-age`,
heuristic freshness and `min-fresh` out of the way), the response is served
without validation iff the parsed request `max-stale` value strictly
exceeds the staleness `age − max-age`; a `max-stale` with no value (or an
unparseable one) parses as 0 and never allows stale serving, and at
`|freshness| = max-stale` the resource is validated (strict `<`, not `≤`). -/
theorem c6_needsValidation_maxStale (parseT : String → Option Int) (now : Int)
    (shared : Bool) (res : Resource) (r : cacheRequest)
    (h1 : res.MustValidate shared = false)
    (h2 : res.IsStale = false)
    (maxAge : Int) (h3 : Resource.MaxAge parseT now res shared = Except.ok maxAge)
    (h4 : r.cacheControl.Has "max-age" = false)
    (age : Int) (h5 : Resource.Age parseT now res = Except.ok age)
    (h6 : res.HeuristicFreshness parseT now ≤ age)
    (h7 : r.cacheControl.Has "min-fresh" = false)
    (h8 : maxAge < age) :
    Handler.needsValidation parseT now shared res r = false ↔
      age - maxAge < durationOrZero r.cacheControl "max-stale" := by
  simp only [Handler.needsValidation, h1, h2, h3, h4, h5, h7, gt_iff_lt]
  rw [if_neg (not_lt.2 h6), if_pos h8]
  by_cases hms : age - maxAge < durationOrZero r.cacheControl "max-stale"
  · rw [if_pos hms]
    simp [hms]
  · rw [if_neg hms]
    simp [hms]

/-- C6 witness: the amended theorem applied at the 100s-old `max-age=60`
resource with `max-stale=50` — staleness 40s is strictly within the
50s allowance, so no validation is needed. -/
theorem c6_witness :
    Handler.needsValidation parseD (100 * nsec) false res6 req6b = false :=
  (c6_needsValidation_maxStale parseD (100 * nsec) false res6 req6b
    (by rfl) (by rfl) (60 * nsec) (by rfl) (by rfl) (100 * nsec) (by rfl)
    (by decide) (by rfl) (by decide)).mpr (by decide)

/-- C8: after `Invalidate(k)` records the instant `T`, a `Retrieve(k)` of the
stored entry returns it with `stale = true` when its `Date` header is absent
or parses to an instant strictly before `T`, and with `stale = false` when
it parses to an instant strictly after `T`; the invalidation leaves the
stored body and header files untouched (the entry is not removed). -/
theorem c8_invalidate_observable (parseT : String → Option Int) (c : Cache)
    (k : String) (T : Int) (body : List Nat) (h : Headers)
    (hb : c.bodies.lookup k = some body)
    (hh : c.headerFiles.lookup k = some h) :
    ((h.Get "Date" = "" ∨ (∃ t, parseT (h.Get "Date") = some t ∧ t < T)) →
      Cache.Retrieve parseT (c.Invalidate T [k]) k =
        Except.ok ⟨200, h, body, [], true⟩) ∧
    ((∃ t, parseT (h.Get "Date") = some t ∧ T < t) → h.Get "Date" ≠ "" →
      Cache.Retrieve parseT (c.Invalidate T [k]) k =
        Except.ok ⟨200, h, body, [], false⟩) ∧
    (c.Invalidate T [k]).bodies = c.bodies ∧
    (c.Invalidate T [k]).headerFiles = c.headerFiles := by
  have hret : ∀ res : Resource,
      Cache.Retrieve parseT (c.Invalidate T [k]) k =
        (if ¬Resource.DateAfter parseT ⟨200, h, body, [], false⟩ T then
          Except.ok (Resource.MarkStale ⟨200, h, body, [], false⟩)
        else Except.ok ⟨200, h, body, [], false⟩) := by
    intro res
    simp only [Cache.Retrieve, Cache.Invalidate, List.foldl]
    rw [hb, hh]
    simp [List.lookup]
  refine ⟨?_, ?_, rfl, rfl⟩
  · intro hd
    rw [hret ⟨200, h, body, [], false⟩]
    have hda : Resource.DateAfter parseT ⟨200, h, body, [], false⟩ T = false := by
      unfold Resource.DateAfter
      rcases hd with hd | ⟨t, ht, hlt⟩
      · simp [hd]
      · by_cases hne : Headers.Get h "Date" ≠ ""
        · rw [if_pos hne, ht]
          simp
          omega
        · rw [if_neg hne]

    rw [hda]
    simp [Resource.MarkStale]
  · rintro ⟨t, ht, hgt⟩ hne
    rw [hret ⟨200, h, body, [], false⟩]
    have hda : Resource.DateAfter parseT ⟨200, h, body, [], false⟩ T = true := by
      unfold Resource.DateAfter
      rw [if_pos hne, ht]
      simp
      omega
    rw [hda]
    simp

/-- A one-entry cache fixture for the C8 witness, keyed `K` and dated `D`. -/
def cache8 : Cache := ⟨[("K", [1])], [("K", [("Date", ["D"])])], []⟩

/-- A parse oracle mapping the date string `D` to instant 5. -/
def parseD5 : String → Option Int := fun s => if s = "D" then some 5 else none

/-- C8 witness: invalidating `K` at instant 10 makes the retrieval of the
resource dated 5 come back stale. -/
theorem c8_witness :
    Cache.Retrieve parseD5 (cache8.Invalidate 10 ["K"]) "K" =
      Except.ok ⟨200, [("Date", ["D"])], [1], [], true⟩ :=
  (c8_invalidate_observable parseD5 cache8 "K" 10 [1] [("Date", ["D"])]
    (by rfl) (by rfl)).1 (Or.inr ⟨5, by rfl, by decide⟩)

/-- The body bytes readable through `DiskStorage.Get(k)`: the file contents
under the returned storable's path. -/
def DiskStorage.bodyViaGet (ds : DiskStorage) (k : String) : Option (List Nat) :=
  match (ds.Get k).1 with
  | some fs => ds.readBody fs
  | none => none

/-- C9: `Freshen(k, status, headers)` preserves the body bytes readable via
`Get(k)`, on both the memory backend (the buffered bytes are untouched) and
the disk backend (the storable's path and the file contents are untouched);
only status and headers are replaced. -/
theorem c9_freshen_preserves_body :
    (∀ (ms : MemoryStorage) (k : String) (st : Int) (hd : Headers),
      (((ms.Freshen k st hd).1.Get k).1).map byteStorable.body =
        ((ms.Get k).1).map byteStorable.body) ∧
    (∀ (ds : DiskStorage) (k : String) (st : Int) (hd : Headers),
      DiskStorage.bodyViaGet ((ds.Freshen k st hd).1) k =
        DiskStorage.bodyViaGet ds k) := by
  constructor
  · intro ms k st hd
    cases hl : ms.items.entries.lookup k with
    | none => simp [MemoryStorage.Freshen, hl]
    | some s =>
      simp [MemoryStorage.Freshen, MemoryStorage.Get, hl, List.lookup]
  · intro ds k st hd
    cases hl : ds.items.entries.lookup k with
    | none => simp [DiskStorage.Freshen, DiskStorage.bodyViaGet, hl]
    | some s =>
      simp [DiskStorage.Freshen, DiskStorage.bodyViaGet, DiskStorage.Get,
        DiskStorage.readBody, hl, List.lookup]

/-! ### C7: the capped-store invariant -/

/-- The sum over the live entries of body size plus key length — the
quantity the capacity bound speaks about. -/
def sumEntrySizes (sz : α → Nat) : List (String × α) → Nat
  | [] => 0
  | p :: t => lruEntrySize sz p.1 p.2 + sumEntrySizes sz t

/-- Well-formedness of a `CappedLRUList`: the running size counter equals
the sum of the entry sizes. -/
def lruWF (sz : α → Nat) (l : CappedLRUList α) : Prop :=
  l.size = sumEntrySizes sz l.entries

theorem sum_eraseP_of_lookup (sz : α → Nat) {es : List (String × α)} {k : String}
    {s : α} (h : es.lookup k = some s) :
    sumEntrySizes sz (es.eraseP (fun p => p.1 == k)) + lruEntrySize sz k s =
      sumEntrySizes sz es := by
  induction es with
  | nil => simp [List.lookup] at h
  | cons p t ih =>
    rw [List.lookup] at h
    by_cases hk : k = p.1
    · have hbeq : (k == p.1) = true := beq_iff_eq.2 hk
      rw [hbeq] at h
      simp at h
      subst h
      have : (fun q => q.1 == k) p = true := by
        simp [beq_iff_eq, hk.symm]
      simp [List.eraseP_cons, this, sumEntrySizes, hk]
      omega
    · have hbeq : (k == p.1) = false := beq_false_of_ne hk
      rw [hbeq] at h
      simp at h
      have hpk : (fun q => q.1 == k) p = false := by
        simp [beq_iff_eq]
        exact fun hh => hk hh.symm
      simp [List.eraseP_cons, hpk, sumEntrySizes]
      have := ih h
      omega

theorem lookup_eraseP_ne {α : Type} {es : List (String × α)} {k k' : String}
    (hne : k' ≠ k) :
    (es.eraseP (fun p => p.1 == k)).lookup k' = es.lookup k' := by
  induction es with
  | nil => simp
  | cons p t ih =>
    by_cases hpk : p.1 = k
    · have hp : (p.1 == k) = true := beq_iff_eq.2 hpk
      rw [List.eraseP_cons]
      simp only [hp, cond_true]
      rw [List.lookup]
      have : (k' == p.1) = false := beq_false_of_ne (by rw [hpk]; exact hne)
      rw [this]
    · have hp : (p.1 == k) = false := beq_false_of_ne hpk
      rw [List.eraseP_cons]
      simp only [hp, cond_false]
      rw [List.lookup, List.lookup]
      by_cases hk' : k' = p.1
      · rw [beq_iff_eq.2 hk']
      · rw [beq_false_of_ne hk']
        simp only
        exact ih

theorem lru_delete_wf (sz : α → Nat) (l : CappedLRUList α) (k : String)
    (h : lruWF sz l) : lruWF sz (l.Delete sz k) := by
  unfold CappedLRUList.Delete
  cases hl : l.entries.lookup k with
  | none => exact h
  | some s =>
    unfold lruWF at h ⊢
    simp only
    have := sum_eraseP_of_lookup sz hl
    omega

theorem lru_delete_capacity (sz : α → Nat) (l : CappedLRUList α) (k : String) :
    (l.Delete sz k).capacity = l.capacity := by
  unfold CappedLRUList.Delete
  cases l.entries.lookup k <;> rfl

theorem lru_delete_size_le (sz : α → Nat) (l : CappedLRUList α) (k : String) :
    (l.Delete sz k).size ≤ l.size := by
  unfold CappedLRUList.Delete
  cases l.entries.lookup k with
  | none => exact le_refl _
  | some s => exact Nat.sub_le _ _

theorem trim_spec (sz : α → Nat) :
    ∀ (n : Nat) (l : CappedLRUList α), l.entries.length ≤ n → lruWF sz l →
      lruWF sz (l.trim sz) ∧ (l.trim sz).capacity = l.capacity ∧
        (l.capacity ≠ 0 → (l.trim sz).size ≤ l.capacity) := by
  intro n
  induction n with
  | zero =>
    intro l hlen hwf
    rw [CappedLRUList.trim]
    rw [dif_neg (by omega)]
    refine ⟨hwf, rfl, fun hcap => ?_⟩
    have : l.entries = [] := List.length_eq_zero.1 (by omega)
    rw [hwf, this]
    simp [sumEntrySizes]
  | succ m ih =>
    intro l hlen hwf
    rw [CappedLRUList.trim]
    split_ifs with hg
    · have hshrink := lru_delete_oldest_shrinks sz l hg.2.2
      have hwf' := lru_delete_wf sz l l.oldestKey hwf
      have hcap' := lru_delete_capacity sz l l.oldestKey
      obtain ⟨w1, w2, w3⟩ := ih (l.Delete sz l.oldestKey) (by omega) hwf'
      exact ⟨w1, by rw [w2, hcap'], fun hc => by
        rw [← hcap'] at hc
        have := w3 hc
        rw [hcap'] at this
        exact this⟩
    · refine ⟨hwf, rfl, fun hcap => ?_⟩
      push_neg at hg
      by_cases hsz : l.size > l.capacity
      · have hlen0 := hg hcap hsz
        have : l.entries = [] := List.length_eq_zero.1 (by omega)
        rw [hwf, this]
        simp [sumEntrySizes]
      · omega

theorem trim_id_of_cap0 (sz : α → Nat) (l : CappedLRUList α)
    (h : l.capacity = 0) : l.trim sz = l := by
  rw [CappedLRUList.trim]
  rw [dif_neg (by simp [h])]

theorem lru_add_spec (sz : α → Nat) (l : CappedLRUList α) (k : String) (s : α)
    (hwf : lruWF sz l) :
    lruWF sz (l.Add sz k s) ∧ (l.Add sz k s).capacity = l.capacity ∧
      (l.capacity ≠ 0 → (l.Add sz k s).size ≤ l.capacity) := by
  unfold CappedLRUList.Add
  have hwf' : lruWF sz
      { l with entries := (k, s) :: l.entries, size := l.size + lruEntrySize sz k s } := by
    unfold lruWF at hwf ⊢
    simp [sumEntrySizes]
    omega
  exact trim_spec sz _ _ (le_refl _) hwf'

theorem lru_add_cap0_lookup (sz : α → Nat) (l : CappedLRUList α) (k : String)
    (s : α) (k' : String) (hcap : l.capacity = 0) (hne : k' ≠ k) :
    ((l.Add sz k s).entries).lookup k' = l.entries.lookup k' := by
  unfold CappedLRUList.Add
  rw [trim_id_of_cap0 sz ⟨(k, s) :: l.entries, l.size + lruEntrySize sz k s, l.capacity⟩
    hcap]
  rw [List.lookup]
  rw [beq_false_of_ne hne]

/-- The reachable-state invariant of a memory store of capacity `cap`:
the size counter is consistent and within the bound. -/
def memInv (cap : Nat) (ms : MemoryStorage) : Prop :=
  lruWF byteStorable.Size ms.items ∧ ms.items.capacity = cap ∧
    (cap ≠ 0 → ms.items.size ≤ cap)

theorem memStore_inv (cap : Nat) (ms : MemoryStorage) (k : String)
    (s : byteStorable) (h : memInv cap ms) : memInv cap ((ms.Store k s).1) := by
  obtain ⟨hwf, hcap, hsz⟩ := h
  unfold MemoryStorage.Store MemoryStorage.Delete
  cases hl : ms.items.entries.lookup k with
  | none =>
    simp only [shouldPropagateDeleteErr, IsErrNotFound, Bool.not_true,
      Bool.false_eq_true, if_false]
    cases hc : StorableCopy s with
    | error e => exact ⟨hwf, hcap, hsz⟩
    | ok buf =>
      have ha := lru_add_spec byteStorable.Size ms.items k ⟨buf, s.header, s.statusCode⟩ hwf
      refine ⟨ha.1, by rw [ha.2.1, hcap], fun h0 => ?_⟩
      rw [← hcap]
      exact ha.2.2 (by rw [hcap]; exact h0)
  | some v =>
    simp only [shouldPropagateDeleteErr, IsErrNotFound, Bool.not_true,
      Bool.false_eq_true, if_false]
    have hwf1 := lru_delete_wf byteStorable.Size ms.items k hwf
    have hcap1 := lru_delete_capacity byteStorable.Size ms.items k
    have hsz1 := lru_delete_size_le byteStorable.Size ms.items k
    have hd : (MemoryStorage.mk (ms.items.Delete byteStorable.Size k)).items
        = ms.items.Delete byteStorable.Size k := rfl
    cases hc : StorableCopy s with
    | error e =>
      exact ⟨hwf1, by rw [hd, hcap1, hcap], fun h0 => le_trans hsz1 (hsz h0)⟩
    | ok buf =>
      have ha := lru_add_spec byteStorable.Size (ms.items.Delete byteStorable.Size k)
        k ⟨buf, s.header, s.statusCode⟩ hwf1
      refine ⟨ha.1, by rw [ha.2.1, hcap1, hcap], fun h0 => ?_⟩
      have := ha.2.2 (by rw [hcap1, hcap]; exact h0)
      rw [hcap1, hcap] at this
      exact this

/-- A sequence of `Store` operations run against a memory store. -/
def runMemOps (ops : List (String × byteStorable)) (ms : MemoryStorage) :
    MemoryStorage :=
  ops.foldl (fun m op => (m.Store op.1 op.2).1) ms

theorem runMemOps_inv (cap : Nat) (ops : List (String × byteStorable)) :
    ∀ ms : MemoryStorage, memInv cap ms → memInv cap (runMemOps ops ms) := by
  induction ops with
  | nil => exact fun ms h => h
  | cons op t ih =>
    intro ms h
    exact ih _ (memStore_inv cap ms op.1 op.2 h)

/-- C7: with a positive byte capacity `C`, after any sequence of `Store`
operations on a fresh memory store the sum over the live entries of body
size plus key length is at most `C` (the trim loop evicts from the LRU end
until the counter is within the bound); with capacity 0 a `Store` never
evicts: every other key's entry survives unchanged. -/
theorem c7_capacity_invariant :
    (∀ C : Nat, 0 < C → ∀ ops : List (String × byteStorable),
      sumEntrySizes byteStorable.Size
        (runMemOps ops (NewMemoryStorage C)).items.entries ≤ C) ∧
    (∀ (ms : MemoryStorage) (k : String) (s : byteStorable) (k' : String)
        (v : byteStorable), ms.items.capacity = 0 → k' ≠ k →
      ms.items.entries.lookup k' = some v →
      ((ms.Store k s).1).items.entries.lookup k' = some v) := by
  constructor
  · intro C hC ops
    have hinit : memInv C (NewMemoryStorage C) :=
      ⟨rfl, rfl, fun _ => Nat.zero_le _⟩
    obtain ⟨hwf, hcap, hsz⟩ := runMemOps_inv C ops _ hinit
    rw [lruWF] at hwf
    rw [← hwf]
    exact hsz (by omega)
  · intro ms k s k' v hcap0 hne hv
    unfold MemoryStorage.Store MemoryStorage.Delete
    cases hl : ms.items.entries.lookup k with
    | none =>
      simp only [shouldPropagateDeleteErr, IsErrNotFound, Bool.not_true,
        Bool.false_eq_true, if_false]
      cases hc : StorableCopy s with
      | error e => exact hv
      | ok buf =>
        simp only
        rw [lru_add_cap0_lookup byteStorable.Size ms.items k _ k' hcap0 hne]
        exact hv
    | some v0 =>
      simp only [shouldPropagateDeleteErr, IsErrNotFound, Bool.not_true,
        Bool.false_eq_true, if_false]
      have hdel : ((ms.items.Delete byteStorable.Size k).entries).lookup k' = some v := by
        unfold CappedLRUList.Delete
        rw [hl]
        simp only
        rw [lookup_eraseP_ne hne]
        exact hv
      cases hc : StorableCopy s with
      | error e => exact hdel
      | ok buf =>
        simp only
        rw [lru_add_cap0_lookup byteStorable.Size _ k _ k'
          (by rw [lru_delete_capacity]; exact hcap0) hne]
        exact hdel

/-- C7 witness: a store of capacity 1 receiving a 3-byte body under a
2-byte key ends up within the bound (the oversized entry is itself
evicted), and a capacity-0 store keeps an unrelated entry across a store. -/
theorem c7_witness :
    (0 < 1 ∧ sumEntrySizes byteStorable.Size
      (runMemOps [("ab", ⟨[7, 7, 7], [], 200⟩)] (NewMemoryStorage 1)).items.entries ≤ 1) ∧
    ((((MemoryStorage.mk ⟨[("old", ⟨[1], [], 200⟩)], 4, 0⟩).Store "new"
        ⟨[2], [], 200⟩).1).items.entries.lookup "old" = some ⟨[1], [], 200⟩) :=
  ⟨⟨by decide, c7_capacity_invariant.1 1 (by decide) [("ab", ⟨[7, 7, 7], [], 200⟩)]⟩,
   c7_capacity_invariant.2 (MemoryStorage.mk ⟨[("old", ⟨[1], [], 200⟩)], 4, 0⟩) "new"
     ⟨[2], [], 200⟩ "old" ⟨[1], [], 200⟩ (by rfl) (by decide) (by rfl)⟩

/-- C2 witness: the amended characterisation applied at concrete headers
agreeing on `ETag`. -/
theorem c2_witness : headersEqual [("Etag", ["v1"])] [("Etag", ["v1"])] = true :=
  (c2_headersEqual_spec [("Etag", ["v1"])] [("Etag", ["v1"])]).mpr (by decide)

/-- C3 witness: the amended characterisation applied at a plain HEAD
request. -/
theorem c3_witness : cacheRequest.isCacheable ⟨"HEAD", [], []⟩ = true :=
  (c3_isCacheable_spec ⟨"HEAD", [], []⟩).mpr (by decide)

/-- C4 witness: the Host-header clause applied at a concrete HTTP/1.1
request with an empty host. -/
theorem c4_witness :
    newCacheRequest "GET" [] "HTTP/1.1" "" = Except.error "Host header cannot be empty" :=
  (c4_parse_never_fails.2 "GET" [] "HTTP/1.1" "").mpr ⟨rfl, rfl⟩

/-- C9 witness: the freshen/body-preservation theorem applied at concrete
one-entry memory and disk stores. -/
theorem c9_witness :
    ((((MemoryStorage.mk ⟨[("k", ⟨[9], [], 200⟩)], 3, 0⟩).Freshen "k" 404
        [("X-Test", ["alpacas"])]).1.Get "k").1).map byteStorable.body =
      (((MemoryStorage.mk ⟨[("k", ⟨[9], [], 200⟩)], 3, 0⟩).Get "k").1).map
        byteStorable.body ∧
    DiskStorage.bodyViaGet
        (((DiskStorage.mk ⟨[("k", ⟨"k", 1, [], 200⟩)], 3, 0⟩ [("k", [9])]).Freshen
          "k" 404 [("X-Test", ["alpacas"])]).1) "k" =
      DiskStorage.bodyViaGet (DiskStorage.mk ⟨[("k", ⟨"k", 1, [], 200⟩)], 3, 0⟩
        [("k", [9])]) "k" :=
  ⟨c9_freshen_preserves_body.1 (MemoryStorage.mk ⟨[("k", ⟨[9], [], 200⟩)], 3, 0⟩)
    "k" 404 [("X-Test", ["alpacas"])],
   c9_freshen_preserves_body.2 (DiskStorage.mk ⟨[("k", ⟨"k", 1, [], 200⟩)], 3, 0⟩
    [("k", [9])]) "k" 404 [("X-Test", ["alpacas"])]⟩

/-- C10 witness: `IsErrNotFound` on an I/O error and the delete-error guard
on a key-not-found error, at concrete values. -/
theorem c10_witness :
    IsErrNotFound (StorageErr.ioError "disk full") = true ∧
    shouldPropagateDeleteErr (some (StorageErr.keyNotFound "m" "k")) = false :=
  ⟨c10_isErrNotFound_total.1 (StorageErr.ioError "disk full"),
   c10_isErrNotFound_total.2.1 (some (StorageErr.keyNotFound "m" "k"))⟩

end Httpcache
